import Mathlib

/-!
Verification development for the HTML checker (`src/checkers/htmlchecker.py`).

The Python source is shallowly embedded:

* `distutils.version.LooseVersion` — the version strings are decomposed by
  `component_re = (\d+ | [a-z]+ | \.)` into runs of ASCII digits, runs of
  lowercase ASCII letters, and single dots; dots are dropped, digit runs
  become integers, everything else stays a string (`lvParse`).  Comparison is
  Python list comparison over those mixed lists: equal elements are skipped,
  the first differing pair is compared (`int` vs `str` raises `TypeError`),
  and a strict prefix compares less (`lvListCmp`).  `Version.__init__` only
  calls `parse` when the string is truthy, so `LooseVersion("")` has no
  `version` attribute and comparing it raises `AttributeError`; this is
  modelled by `looseVersion` returning `none` for `""` and `lvCompare`
  reporting `attributeError`.
* Python exceptions are values of `PyErr`; a function that can raise returns
  `Except PyErr _`.
* `re`-compiled patterns are embedded as a group count together with the
  `findall` result function (the regex engine itself is an external
  collaborator); `urljoin` and the metadata fetch are likewise passed in as
  oracles.
* Mutations of the external record and the network round-trips performed by
  `check` are recorded as explicit event lists so that ordering and framing
  claims can be stated.
-/

/-- One component of a parsed `LooseVersion`: an integer (from a digit run)
or a string (letter runs and unrecognised characters). -/
inductive LVPart : Type where
  | num (n : Nat)
  | str (s : String)
deriving DecidableEq, Repr

/-- Character classes of `component_re`: digit, lowercase letter, dot,
anything else (inter-match text). -/
inductive CKind : Type where
  | dig
  | alp
  | dot
  | oth
deriving DecidableEq, Repr

def kindOf (c : Char) : CKind :=
  if c.isDigit then .dig
  else if 'a' ≤ c ∧ c ≤ 'z' then .alp
  else if c = '.' then .dot
  else .oth

/-- Split a character list into maximal runs of one character class, with
each dot as its own singleton run (mirroring `component_re.split` where the
unmatched inter-match text also forms runs). -/
def lvChunks : List Char → List (List Char)
  | [] => []
  | c :: cs =>
    match lvChunks cs with
    | (d :: ds) :: rest =>
      if kindOf c = kindOf d ∧ kindOf c ≠ CKind.dot then (c :: d :: ds) :: rest
      else [c] :: (d :: ds) :: rest
    | chunks => [c] :: chunks

def digitsToNat (g : List Char) : Nat :=
  g.foldl (fun n ch => n * 10 + (ch.toNat - 48)) 0

/-- `LooseVersion.parse`: drop the dots, turn digit runs into integers and
keep the other runs as strings. -/
def lvParse (s : String) : List LVPart :=
  (lvChunks s.data).filterMap fun g =>
    match g with
    | [] => none
    | c :: _ =>
      match kindOf c with
      | .dot => none
      | .dig => some (.num (digitsToNat g))
      | .alp => some (.str (String.mk g))
      | .oth => some (.str (String.mk g))

/-- Three-way comparison derived from a linear order, mirroring how Python
compares two ints or two strings. -/
def linCmp {β : Type} [LinearOrder β] (a b : β) : Ordering :=
  if a < b then .lt else if b < a then .gt else .eq

/-- Comparison of two list elements as Python does it at the first point of
difference: `int`/`int` and `str`/`str` compare, mixed kinds raise
`TypeError` (`none`). -/
def lvPartCmp : LVPart → LVPart → Option Ordering
  | .num a, .num b => some (linCmp a b)
  | .str a, .str b => some (linCmp a b)
  | _, _ => none

/-- Python list comparison over parsed components: skip equal elements,
compare the first differing pair (mixed kinds are a `TypeError`, `none`), a
strict prefix is smaller. -/
def lvListCmp : List LVPart → List LVPart → Option Ordering
  | [], [] => some .eq
  | [], _ :: _ => some .lt
  | _ :: _, [] => some .gt
  | a :: as, b :: bs => if a = b then lvListCmp as bs else lvPartCmp a b

/-- Python exceptions that the embedded code can raise. -/
inductive PyErr : Type where
  | assertionError
  | typeError
  | attributeError
  | keyError
  | valueError
deriving DecidableEq, Repr

deriving instance DecidableEq for Except

/-- `LooseVersion(s)`: `Version.__init__` parses only a truthy (non-empty)
string; for `""` the `version` attribute is left unset (`none`). -/
def looseVersion (s : String) : Option (List LVPart) :=
  if s = "" then none else some (lvParse s)

/-- Comparing two `LooseVersion` objects: an unparsed operand raises
`AttributeError`; otherwise Python list comparison, whose mixed-kind case
raises `TypeError`. -/
def lvCompare : Option (List LVPart) → Option (List LVPart) → Except PyErr Ordering
  | some x, some y =>
    match lvListCmp x y with
    | some o => .ok o
    | none => .error .typeError
  | _, _ => .error .attributeError

/-- Python's `max(best, *rest, key=...)` scan: walk the list keeping the
current best, replacing it only when a later element compares strictly
greater; a failing comparison propagates as an exception.  Ties keep the
earlier element, so the result is the first occurrence of the maximum. -/
def pymaxBy {α : Type} (key : α → Option (List LVPart)) : α → List α → Except PyErr α
  | best, [] => .ok best
  | best, x :: xs =>
    match lvCompare (key x) (key best) with
    | .error e => .error e
    | .ok .gt => pymaxBy key x xs
    | .ok _ => pymaxBy key best xs

/-- `_get_latest(html, pattern, sort_key)` after `pattern.findall(html)` has
produced the match list: no match gives `None`; a single match, or a missing
sort key, gives the first match; otherwise `max(match, key=sort_key)`. -/
def get_latest {α : Type} (found : List α) (sort_key : Option (α → Option (List LVPart))) :
    Except PyErr (Option α) :=
  match found, sort_key with
  | [], _ => .ok none
  | m :: _, none => .ok (some m)
  | m :: [], some _ => .ok (some m)
  | m :: rest, some k => (pymaxBy k m rest).map some

/-- Decimal digits of `n`, most significant first; the first argument is
structural fuel (`n` itself suffices). -/
def decimalDigitsAux : Nat → Nat → List Char
  | 0, _ => []
  | _, 0 => []
  | fuel + 1, n + 1 =>
    decimalDigitsAux fuel ((n + 1) / 10) ++ [Char.ofNat (48 + (n + 1) % 10)]

/-- Python `str()` of a non-negative integer. -/
def pyStrNat (n : Nat) : String :=
  if n = 0 then "0" else String.mk (decimalDigitsAux n n)

/-- The spec's description of the multi-match selection outcome: the
returned match is a maximal element under the version ordering, and ties are
broken by first occurrence — every match preceding it in the list compares
strictly smaller, and no match anywhere compares strictly greater. -/
def StableMaxBy {α : Type} (key : α → Option (List LVPart)) (l : List α) (r : α) : Prop :=
  ∃ pre post, l = pre ++ r :: post ∧
    (∀ x ∈ l, lvCompare (key x) (key r) ≠ .ok .gt) ∧
    (∀ x ∈ pre, lvCompare (key x) (key r) = .ok .lt)

/-- Rendering of a version component when it is substituted into a template
(`str()` of an `int` or of a `str`). -/
def LVPart.toStr : LVPart → String
  | .num n => pyStrNat n
  | .str s => s

/-- The placeholder dictionary of `_substitute_placeholders`, in insertion
order: `version{i}` for the i-th component, immediately followed by the
alias `major`/`minor`/`patch` when `i` is 0/1/2. -/
def tmplVarsAux : Nat → List LVPart → List (String × String)
  | _, [] => []
  | i, p :: ps =>
    ("version" ++ pyStrNat i, p.toStr) ::
      ((if i = 0 then [("major", p.toStr)]
        else if i = 1 then [("minor", p.toStr)]
        else if i = 2 then [("patch", p.toStr)]
        else []) ++ tmplVarsAux (i + 1) ps)

/-- The full placeholder dictionary: `version` maps to the whole string,
then the per-component entries. -/
def tmplVars (version : String) : List (String × String) :=
  ("version", version) :: tmplVarsAux 0 (lvParse version)

/-- Identifier characters of `string.Template` (`[_a-zA-Z][_a-zA-Z0-9]*`,
ASCII thanks to the `(?a:...)` idpattern). -/
def isIdStart (c : Char) : Bool :=
  c = '_' || c.isAlpha

def isIdChar (c : Char) : Bool :=
  isIdStart c || c.isDigit

/-- Scanner state for `Template.substitute`: plain text, just after `$`,
inside a bare identifier (characters collected in reverse), or inside a
braced identifier. -/
inductive SubstState : Type where
  | plain
  | afterDollar
  | bareId (acc : List Char)
  | bracedId (acc : List Char)

/-- `Template.substitute` over the template's characters: `$$` escapes,
`$name` and `$\x7bname\x7d` look the identifier up (`KeyError` when absent),
any other use of `$` is a `ValueError`. -/
def substAux (vars : List (String × String)) : SubstState → List Char → Except PyErr (List Char)
  | .plain, [] => .ok []
  | .plain, c :: cs =>
    if c = '$' then substAux vars .afterDollar cs
    else (c :: ·) <$> substAux vars .plain cs
  | .afterDollar, [] => .error .valueError
  | .afterDollar, c :: cs =>
    if c = '$' then ('$' :: ·) <$> substAux vars .plain cs
    else if c = '{' then substAux vars (.bracedId []) cs
    else if isIdStart c then substAux vars (.bareId [c]) cs
    else .error .valueError
  | .bareId acc, [] =>
    match List.lookup (String.mk acc.reverse) vars with
    | none => .error .keyError
    | some v => .ok v.data
  | .bareId acc, c :: cs =>
    if isIdChar c then substAux vars (.bareId (c :: acc)) cs
    else
      match List.lookup (String.mk acc.reverse) vars with
      | none => .error .keyError
      | some v =>
        if c = '$' then (v.data ++ ·) <$> substAux vars .afterDollar cs
        else (fun r => v.data ++ c :: r) <$> substAux vars .plain cs
  | .bracedId _, [] => .error .valueError
  | .bracedId acc, c :: cs =>
    match acc with
    | [] =>
      if isIdStart c then substAux vars (.bracedId [c]) cs
      else .error .valueError
    | _ :: _ =>
      if isIdChar c then substAux vars (.bracedId (c :: acc)) cs
      else if c = '}' then
        match List.lookup (String.mk acc.reverse) vars with
        | none => .error .keyError
        | some v => (v.data ++ ·) <$> substAux vars .plain cs
      else .error .valueError

/-- `HTMLChecker._substitute_placeholders`.  The first statement,
`LooseVersion(version).version`, raises `AttributeError` when `version` is
the empty string (the `version` attribute was never set); otherwise the
placeholder dictionary is built and substituted into the template. -/
def substitute_placeholders (template_string version : String) : Except PyErr String :=
  if version = "" then .error .attributeError
  else (substAux (tmplVars version) .plain template_string.data).map String.mk

/-- A compiled regex expected to capture `(url, version)` together: the
`groups` attribute that the source inspects with `assert`, and the
`findall` results (the regex engine is an external collaborator; when
`groups = 2`, `re` guarantees each match is a pair, and the source only
calls `findall` after the `groups` assertion has passed). -/
structure ComboPattern : Type where
  groups : Nat
  findall : String → List (String × String)

/-- A compiled regex expected to capture one group: `findall` yields the
single captured string per match. -/
structure SinglePattern : Type where
  groups : Nat
  findall : String → List String

/-- The `checker_data` mapping of one external record.  A pattern compiled
by `_get_pattern` is `none` when the key is absent; `sort_matches` carries
the `checker_data.get("sort-matches", True)` default. -/
structure CheckerData : Type where
  url : String
  pattern : Option ComboPattern
  version_pattern : Option SinglePattern
  url_pattern : Option SinglePattern
  url_template : Option String
  sort_matches : Bool

/-- Modelled from the spec: the version descriptor installed into the
external record — the version string plus the metadata (size, checksum,
absolute URL) returned by the "describe remote resource" collaborator
(`utils.get_extra_data_info_from_url`, outside this unit). -/
structure Descriptor : Type where
  version : String
  url : String
  checksum : String
  size : Nat
deriving DecidableEq, Repr

/-- Modelled from the spec: the per-record state enum of `ExternalData`
(`OK`, `BROKEN`, others out of scope). -/
inductive EDState : Type where
  | ok
  | broken
  | other
deriving DecidableEq, Repr

/-- Modelled from the spec: the external record — a mutable `state` field
plus the descriptor installed by `set_new_version`. -/
structure ExternalData : Type where
  state : EDState
  new_version : Option Descriptor
deriving DecidableEq, Repr

/-- Modelled from the spec: `set_new_version` installs a descriptor into the
record. -/
def ExternalData.set_new_version (ed : ExternalData) (d : Descriptor) : ExternalData :=
  { ed with new_version := some d }

/-- The aiohttp transport failures caught by `_update_version`
(`ClientError` and its server-side refinements). -/
inductive TransportError : Type where
  | clientError
  | serverConnectionError
  | serverDisconnected
  | serverTimeout
deriving DecidableEq, Repr

/-- One mutation of the external record: the `state = BROKEN` assignment or
the `set_new_version` call. -/
inductive Mutation : Type where
  | setBroken
  | setNewVersion (d : Descriptor)
deriving DecidableEq, Repr

/-- Network round-trips performed during a check, in order: the page fetch
(`session.get(url)`) and the metadata fetch inside `_update_version`. -/
inductive Ev : Type where
  | fetchPage
  | metadataFetch
deriving DecidableEq, Repr

/-- The "describe remote resource" collaborator: given the candidate URL and
the `follow_redirects` flag it returns a descriptor or raises one of the
transport errors. -/
def MetaFetch : Type :=
  String → Bool → Except TransportError Descriptor

/-- `HTMLChecker._update_version`: after asserting both arguments non-null,
fetch the metadata of the candidate URL; a transport error sets
`state = BROKEN` and returns normally, success installs the descriptor with
its version overridden by the page-extracted one via `set_new_version`.
Returns the network events, and the updated record with the mutations
performed. -/
def update_version (ed : ExternalData) (latest_version latest_url : Option String)
    (follow_redirects : Bool) (meta : MetaFetch) :
    List Ev × Except PyErr (ExternalData × List Mutation) :=
  match latest_version, latest_url with
  | some v, some u =>
    match meta u follow_redirects with
    | .error _ => ([.metadataFetch], .ok ({ ed with state := .broken }, [.setBroken]))
    | .ok nv =>
      ([.metadataFetch],
        .ok (ed.set_new_version { nv with version := v }, [.setNewVersion { nv with version := v }]))
  | _, _ => ([], .error .assertionError)

/-- Python truthiness of an optional string: `None` and `""` are falsy. -/
def pyTruthy : Option String → Bool
  | none => false
  | some s => !s.isEmpty

/-- Lines 76–99 of `check`: compute `(latest_version, latest_url)` from the
fetched page.  The combo branch asserts two capture groups and unpacks the
selected pair; otherwise the version pattern (one group) is selected, and
the URL comes from the template when both `latest_version` and the template
are truthy, else from the url pattern (one group) when present. -/
def extract (cd : CheckerData) (html : String) : Except PyErr (Option String × Option String) :=
  match cd.pattern with
  | some combo_pattern =>
    if combo_pattern.groups = 2 then
      match get_latest (combo_pattern.findall html)
          (if cd.sort_matches then some (fun m => looseVersion m.2) else none) with
      | .error e => .error e
      | .ok none => .ok (none, none)
      | .ok (some (u, v)) => .ok (some v, some u)
    else .error .assertionError
  | none =>
    match cd.version_pattern with
    | some version_pattern =>
      if version_pattern.groups = 1 then
        match get_latest (version_pattern.findall html)
            (if cd.sort_matches then some looseVersion else none) with
        | .error e => .error e
        | .ok latest_version =>
          if pyTruthy latest_version && pyTruthy cd.url_template then
            match substitute_placeholders (cd.url_template.getD "") (latest_version.getD "") with
            | .error e => .error e
            | .ok u => .ok (latest_version, some u)
          else
            match cd.url_pattern with
            | some url_pattern =>
              if url_pattern.groups = 1 then
                match get_latest (url_pattern.findall html)
                    (if cd.sort_matches then some looseVersion else none) with
                | .error e => .error e
                | .ok latest_url => .ok (latest_version, latest_url)
              else .error .assertionError
            | none => .ok (latest_version, none)
      else .error .assertionError
    | none => .ok (none, none)

/-- Outcome of one `check` invocation: the network events in order, the
record mutations performed, the final record, and the exception that
escaped, if any. -/
structure CheckResult : Type where
  events : List Ev
  muts : List Mutation
  ed : ExternalData
  err : Option PyErr
deriving DecidableEq, Repr

/-- `HTMLChecker.check`: assert that a supported pattern combination is
configured (before any network access; the assert tests Python truthiness,
so an empty url template counts as absent), fetch the page, extract the
`(latest_version, latest_url)` pair, return without mutating when either is
falsy, otherwise join the URL against the page URL (`urljoin` is the
standard-library collaborator, passed as an oracle) and run
`_update_version`.  The page text is supplied as the fetch oracle's result;
a transport failure of the page fetch itself propagates to the caller and
is out of scope. -/
def check (cd : CheckerData) (html : String) (meta : MetaFetch)
    (urljoin : String → String → String) (ed : ExternalData) : CheckResult :=
  if cd.pattern.isSome || (cd.version_pattern.isSome &&
      (cd.url_pattern.isSome || pyTruthy cd.url_template)) then
    match extract cd html with
    | .error e => ⟨[.fetchPage], [], ed, some e⟩
    | .ok (latest_version, latest_url) =>
      match latest_version, latest_url with
      | some v, some u =>
        if v = "" || u = "" then ⟨[.fetchPage], [], ed, none⟩
        else
          match update_version ed (some v) (some (urljoin cd.url u)) false meta with
          | (evs, .ok (ed2, muts)) => ⟨.fetchPage :: evs, muts, ed2, none⟩
          | (evs, .error e) => ⟨.fetchPage :: evs, [], ed, some e⟩
      | _, _ => ⟨[.fetchPage], [], ed, none⟩
  else ⟨[], [], ed, some .assertionError⟩

/-! ### Properties of the lenient version ordering -/

theorem linCmp_lt_iff {β : Type} [LinearOrder β] (a b : β) : linCmp a b = .lt ↔ a < b := by
  unfold linCmp
  rcases lt_trichotomy a b with h | h | h
  · simp [h]
  · subst h; simp [lt_irrefl]
  · simp [not_lt_of_gt h, h, not_lt_of_gt]

theorem linCmp_eq_iff {β : Type} [LinearOrder β] (a b : β) : linCmp a b = .eq ↔ a = b := by
  unfold linCmp
  rcases lt_trichotomy a b with h | h | h
  · simp [h, ne_of_lt h]
  · subst h; simp [lt_irrefl]
  · simp [not_lt_of_gt h, h, ne_of_gt h]

theorem linCmp_swap {β : Type} [LinearOrder β] (a b : β) : linCmp b a = (linCmp a b).swap := by
  unfold linCmp
  rcases lt_trichotomy a b with h | h | h
  · simp [h, not_lt_of_gt h, Ordering.swap]
  · subst h; simp [lt_irrefl, Ordering.swap]
  · simp [h, not_lt_of_gt h, Ordering.swap]

theorem linCmp_lt_trans {β : Type} [LinearOrder β] {a b c : β}
    (h1 : linCmp a b = .lt) (h2 : linCmp b c = .lt) : linCmp a c = .lt := by
  rw [linCmp_lt_iff] at h1 h2 ⊢
  exact lt_trans h1 h2

theorem lvPartCmp_swap (a b : LVPart) : lvPartCmp b a = (lvPartCmp a b).map Ordering.swap := by
  cases a <;> cases b <;>
    simp only [lvPartCmp, Option.map_some', Option.map_none'] <;> rw [linCmp_swap]

theorem lvPartCmp_eq_iff {a b : LVPart} : lvPartCmp a b = some .eq ↔ a = b := by
  cases a <;> cases b <;> simp [lvPartCmp, linCmp_eq_iff]

theorem lvPartCmp_lt_trans {a b c : LVPart} (h1 : lvPartCmp a b = some .lt)
    (h2 : lvPartCmp b c = some .lt) : lvPartCmp a c = some .lt := by
  cases a <;> cases b <;> cases c <;>
    simp_all [lvPartCmp, linCmp_lt_iff] <;> exact lt_trans h1 h2

theorem lvListCmp_refl (a : List LVPart) : lvListCmp a a = some .eq := by
  induction a with
  | nil => rfl
  | cons x xs ih => simp [lvListCmp, ih]

theorem lvListCmp_eq_iff {a b : List LVPart} : lvListCmp a b = some .eq ↔ a = b := by
  induction a generalizing b with
  | nil => cases b <;> simp [lvListCmp]
  | cons x xs ih =>
    cases b with
    | nil => simp [lvListCmp]
    | cons y ys =>
      by_cases h : x = y
      · subst h; simp [lvListCmp, ih]
      · simp [lvListCmp, h, lvPartCmp_eq_iff]

theorem lvListCmp_swap : ∀ a b : List LVPart, lvListCmp b a = (lvListCmp a b).map Ordering.swap
  | [], [] => rfl
  | [], _ :: _ => rfl
  | _ :: _, [] => rfl
  | x :: xs, y :: ys => by
    by_cases h : x = y
    · subst h
      simp only [lvListCmp, if_pos rfl]
      exact lvListCmp_swap xs ys
    · have h2 : ¬y = x := fun he => h he.symm
      simp only [lvListCmp, if_neg h, if_neg h2]
      exact lvPartCmp_swap x y

theorem lvListCmp_lt_trans {a b c : List LVPart} (hab : lvListCmp a b = some .lt)
    (hbc : lvListCmp b c = some .lt) (hdef : (lvListCmp a c).isSome = true) :
    lvListCmp a c = some .lt := by
  induction a generalizing b c with
  | nil =>
    cases b with
    | nil => simp [lvListCmp] at hab
    | cons y ys =>
      cases c with
      | nil => simp [lvListCmp] at hbc
      | cons z zs => simp [lvListCmp]
  | cons x xs ih =>
    cases b with
    | nil => simp [lvListCmp] at hab
    | cons y ys =>
      cases c with
      | nil => simp [lvListCmp] at hbc
      | cons z zs =>
        by_cases hxy : x = y
        · subst hxy
          simp only [lvListCmp, if_pos rfl] at hab
          by_cases hxz : x = z
          · subst hxz
            simp only [lvListCmp, if_pos rfl] at hbc hdef ⊢
            exact ih hab hbc hdef
          · simp only [lvListCmp, if_neg hxz] at hbc ⊢
            exact hbc
        · simp only [lvListCmp, if_neg hxy] at hab
          by_cases hyz : y = z
          · subst hyz
            simp only [lvListCmp, if_neg hxy]
            exact hab
          · simp only [lvListCmp, if_neg hyz] at hbc
            by_cases hxz : x = z
            · subst hxz
              rw [lvPartCmp_swap x y, hab] at hbc
              simp [Ordering.swap] at hbc
            · simp only [lvListCmp, if_neg hxz]
              exact lvPartCmp_lt_trans hab hbc

theorem lvListCmp_extend_lt (a : List LVPart) (p : LVPart) (ps : List LVPart) :
    lvListCmp a (a ++ p :: ps) = some .lt := by
  induction a with
  | nil => rfl
  | cons x xs ih => simp [lvListCmp, ih]

theorem lvListCmp_nil_not_gt (l : List LVPart) : lvListCmp [] l ≠ some .gt := by
  cases l <;> simp [lvListCmp]

/-! ### Lifting to `lvCompare` and the Python `max` scan -/

theorem lvCompare_ok_iff {x y : List LVPart} {o : Ordering} :
    lvCompare (some x) (some y) = .ok o ↔ lvListCmp x y = some o := by
  cases h : lvListCmp x y <;> simp [lvCompare, h]

theorem lvCompare_self_of_isOk {a : Option (List LVPart)} (h : (lvCompare a a).isOk = true) :
    lvCompare a a = .ok .eq := by
  cases a with
  | none => simp [lvCompare, Except.isOk, Except.toBool] at h
  | some x => simp [lvCompare, lvListCmp_refl]

theorem lvCompare_gt_swap {a b : Option (List LVPart)} (h : lvCompare a b = .ok .gt) :
    lvCompare b a = .ok .lt := by
  cases a with
  | none => simp [lvCompare] at h
  | some x =>
    cases b with
    | none => simp [lvCompare] at h
    | some y =>
      rw [lvCompare_ok_iff] at h ⊢
      rw [lvListCmp_swap x y, h]
      rfl

theorem lvCompare_eq_keys {a b : Option (List LVPart)} (h : lvCompare a b = .ok .eq) : a = b := by
  cases a with
  | none => simp [lvCompare] at h
  | some x =>
    cases b with
    | none => simp [lvCompare] at h
    | some y =>
      rw [lvCompare_ok_iff] at h
      exact congrArg some (lvListCmp_eq_iff.mp h)

theorem lvCompare_lt_trans {a b c : Option (List LVPart)} (h1 : lvCompare a b = .ok .lt)
    (h2 : lvCompare b c = .ok .lt) (hdef : (lvCompare a c).isOk = true) :
    lvCompare a c = .ok .lt := by
  cases a with
  | none => simp [lvCompare] at h1
  | some x =>
    cases b with
    | none => simp [lvCompare] at h1
    | some y =>
      cases c with
      | none => simp [lvCompare] at h2
      | some z =>
        rw [lvCompare_ok_iff] at h1 h2 ⊢
        refine lvListCmp_lt_trans h1 h2 ?_
        cases hc : lvListCmp x z with
        | none => simp [lvCompare, hc, Except.isOk, Except.toBool] at hdef
        | some o => simp

theorem lvCompare_le_lt_trans {a b c : Option (List LVPart)}
    (h1 : lvCompare a b = .ok .lt ∨ lvCompare a b = .ok .eq)
    (h2 : lvCompare b c = .ok .lt) (hdef : (lvCompare a c).isOk = true) :
    lvCompare a c = .ok .lt := by
  rcases h1 with h1 | h1
  · exact lvCompare_lt_trans h1 h2 hdef
  · rw [lvCompare_eq_keys h1]; exact h2

theorem pymaxBy_ok_aux {α : Type} (key : α → Option (List LVPart)) (best x : α) (xs : List α)
    (H : ∀ a ∈ best :: x :: xs, ∀ b ∈ best :: x :: xs, (lvCompare (key a) (key b)).isOk = true)
    (hle : lvCompare (key x) (key best) = .ok .lt ∨ lvCompare (key x) (key best) = .ok .eq)
    (prev : ∃ r pre post, pymaxBy key best xs = .ok r ∧ best :: xs = pre ++ r :: post ∧
      (∀ z ∈ best :: xs, lvCompare (key z) (key r) ≠ .ok .gt) ∧
      (∀ z ∈ pre, lvCompare (key z) (key r) = .ok .lt)) :
    ∃ r pre post, pymaxBy key best (x :: xs) = .ok r ∧ best :: x :: xs = pre ++ r :: post ∧
      (∀ z ∈ best :: x :: xs, lvCompare (key z) (key r) ≠ .ok .gt) ∧
      (∀ z ∈ pre, lvCompare (key z) (key r) = .ok .lt) := by
  obtain ⟨r, pre, post, heval, hdecomp, hall, hpre⟩ := prev
  have heval2 : pymaxBy key best (x :: xs) = .ok r := by
    rcases hle with h | h <;> simp only [pymaxBy, h] <;> exact heval
  cases pre with
  | nil =>
    simp only [List.nil_append] at hdecomp
    injection hdecomp with h1 h2
    refine ⟨r, [], x :: xs, heval2, by rw [h1]; rfl, ?_, by simp⟩
    intro z hz
    rcases List.mem_cons.mp hz with hz | hz
    · rw [hz]
      exact h1 ▸ hall best (List.mem_cons_self best xs)
    · rcases List.mem_cons.mp hz with hz | hz
      · rw [hz, ← h1]
        rcases hle with h | h <;> simp [h]
      · exact hall z (List.mem_cons_of_mem best hz)
  | cons p pre2 =>
    injection hdecomp with h1 h2
    subst h1
    have hbr : lvCompare (key best) (key r) = .ok .lt :=
      hpre best (List.mem_cons_self best pre2)
    have hrxs : r ∈ xs := by
      rw [h2]
      exact List.mem_append_right pre2 (List.mem_cons_self r post)
    have hrmem : r ∈ best :: x :: xs :=
      List.mem_cons_of_mem best (List.mem_cons_of_mem x hrxs)
    have hxr : lvCompare (key x) (key r) = .ok .lt :=
      lvCompare_le_lt_trans hle hbr
        (H x (List.mem_cons_of_mem best (List.mem_cons_self x xs)) r hrmem)
    refine ⟨r, best :: x :: pre2, post, heval2, ?_, ?_, ?_⟩
    · rw [h2]; simp
    · intro z hz
      rcases List.mem_cons.mp hz with hz | hz
      · subst hz
        simp [hbr]
      · rcases List.mem_cons.mp hz with hz | hz
        · subst hz
          simp [hxr]
        · exact hall z (List.mem_cons_of_mem best hz)
    · intro z hz
      rcases List.mem_cons.mp hz with hz | hz
      · subst hz; exact hbr
      · rcases List.mem_cons.mp hz with hz | hz
        · subst hz; exact hxr
        · exact hpre z (List.mem_cons_of_mem best hz)

theorem pymaxBy_ok {α : Type} (key : α → Option (List LVPart)) :
    ∀ (xs : List α) (best : α),
    (∀ a ∈ best :: xs, ∀ b ∈ best :: xs, (lvCompare (key a) (key b)).isOk = true) →
    ∃ r pre post, pymaxBy key best xs = .ok r ∧ best :: xs = pre ++ r :: post ∧
      (∀ z ∈ best :: xs, lvCompare (key z) (key r) ≠ .ok .gt) ∧
      (∀ z ∈ pre, lvCompare (key z) (key r) = .ok .lt) := by
  intro xs
  induction xs with
  | nil =>
    intro best H
    refine ⟨best, [], [], rfl, rfl, ?_, by simp⟩
    intro z hz
    rcases List.mem_cons.mp hz with hz | hz
    · rw [hz]
      have := lvCompare_self_of_isOk (H best (List.mem_cons_self best []) best
        (List.mem_cons_self best []))
      simp [this]
    · simp at hz
  | cons x xs ih =>
    intro best H
    have hdefxb := H x (List.mem_cons_of_mem best (List.mem_cons_self x xs)) best
      (List.mem_cons_self best (x :: xs))
    have Hx : ∀ a ∈ x :: xs, ∀ b ∈ x :: xs, (lvCompare (key a) (key b)).isOk = true :=
      fun a ha b hb => H a (List.mem_cons_of_mem best ha) b (List.mem_cons_of_mem best hb)
    have memlift : ∀ a : α, a ∈ best :: xs → a ∈ best :: x :: xs := by
      intro a ha
      rcases List.mem_cons.mp ha with h | h
      · exact h ▸ List.mem_cons_self best (x :: xs)
      · exact List.mem_cons_of_mem best (List.mem_cons_of_mem x h)
    have Hbest : ∀ a ∈ best :: xs, ∀ b ∈ best :: xs, (lvCompare (key a) (key b)).isOk = true :=
      fun a ha b hb => H a (memlift a ha) b (memlift b hb)
    cases hc : lvCompare (key x) (key best) with
    | error e =>
      rw [hc] at hdefxb
      simp [Except.isOk, Except.toBool] at hdefxb
    | ok o =>
      cases o with
      | gt =>
        obtain ⟨r, pre, post, heval, hdecomp, hall, hpre⟩ := ih x Hx
        have heval2 : pymaxBy key best (x :: xs) = .ok r := by
          simp only [pymaxBy, hc]
          exact heval
        have hbx : lvCompare (key best) (key x) = .ok .lt := lvCompare_gt_swap hc
        have hrxxs : r ∈ x :: xs := by
          rw [hdecomp]
          exact List.mem_append_right pre (List.mem_cons_self r post)
        have hbr : lvCompare (key best) (key r) = .ok .lt := by
          cases pre with
          | nil =>
            simp only [List.nil_append] at hdecomp
            injection hdecomp with h1 h2
            exact h1 ▸ hbx
          | cons p pre2 =>
            injection hdecomp with h1 h2
            have hxr := hpre p (List.mem_cons_self p pre2)
            rw [← h1] at hxr
            exact lvCompare_lt_trans hbx hxr
              (H best (List.mem_cons_self best (x :: xs)) r
                (List.mem_cons_of_mem best hrxxs))
        refine ⟨r, best :: pre, post, heval2, ?_, ?_, ?_⟩
        · rw [List.cons_append, ← hdecomp]
        · intro z hz
          rcases List.mem_cons.mp hz with hz | hz
          · subst hz
            simp [hbr]
          · exact hall z hz
        · intro z hz
          rcases List.mem_cons.mp hz with hz | hz
          · subst hz
            exact hbr
          · exact hpre z hz
      | lt => exact pymaxBy_ok_aux key best x xs H (Or.inl hc) (ih best Hbest)
      | eq => exact pymaxBy_ok_aux key best x xs H (Or.inr hc) (ih best Hbest)

theorem get_latest_stable {α : Type} (key : α → Option (List LVPart)) (l : List α)
    (hne : l ≠ [])
    (H : ∀ x ∈ l, ∀ y ∈ l, (lvCompare (key x) (key y)).isOk = true) :
    ∃ r, get_latest l (some key) = .ok (some r) ∧ StableMaxBy key l r := by
  cases l with
  | nil => exact absurd rfl hne
  | cons m rest =>
    cases rest with
    | nil =>
      refine ⟨m, rfl, [], [], rfl, ?_, by simp⟩
      intro z hz
      rcases List.mem_cons.mp hz with hz | hz
      · rw [hz]
        have := lvCompare_self_of_isOk
          (H m (List.mem_cons_self m []) m (List.mem_cons_self m []))
        simp [this]
      · simp at hz
    | cons y ys =>
      obtain ⟨r, pre, post, heval, hdecomp, hall, hpre⟩ := pymaxBy_ok key (y :: ys) m H
      refine ⟨r, ?_, pre, post, hdecomp, hall, hpre⟩
      show (pymaxBy key m (y :: ys)).map some = .ok (some r)
      rw [heval]
      rfl

/-! ### The placeholder dictionary -/

theorem lookup_cons_of_ne {β : Type} {a k : String} {b : β} {l : List (String × β)}
    (h : (a == k) = false) : List.lookup a ((k, b) :: l) = List.lookup a l := by
  simp [List.lookup, h]

theorem lookup_cons_self {β : Type} {a : String} {b : β} {l : List (String × β)} :
    List.lookup a ((a, b) :: l) = some b := by
  simp [List.lookup]

theorem tmplVarsAux_mem {p : LVPart} (k : Nat) (ps : List LVPart) :
    ∀ i, ps.get? i = some p →
      ("version" ++ pyStrNat (k + i), p.toStr) ∈ tmplVarsAux k ps := by
  induction ps generalizing k with
  | nil => intro i h; simp at h
  | cons q qs ih =>
    intro i h
    cases i with
    | zero =>
      simp only [List.get?_cons_zero, Option.some.injEq] at h
      subst h
      exact List.mem_cons_self _ _
    | succ j =>
      simp only [List.get?_cons_succ] at h
      have hmem := ih (k + 1) j h
      have harith : k + (j + 1) = k + 1 + j := by omega
      rw [harith]
      exact List.mem_cons_of_mem _ (List.mem_append_right _ hmem)

theorem tmplVarsAux_mem_inv (k : Nat) (ps : List LVPart) :
    ∀ kv ∈ tmplVarsAux k ps,
      (∃ i p, ps.get? i = some p ∧ kv = ("version" ++ pyStrNat (k + i), p.toStr)) ∨
      (∃ i p, ps.get? i = some p ∧ k + i = 0 ∧ kv = ("major", p.toStr)) ∨
      (∃ i p, ps.get? i = some p ∧ k + i = 1 ∧ kv = ("minor", p.toStr)) ∨
      (∃ i p, ps.get? i = some p ∧ k + i = 2 ∧ kv = ("patch", p.toStr)) := by
  induction ps generalizing k with
  | nil => intro kv h; simp [tmplVarsAux] at h
  | cons q qs ih =>
    intro kv h
    simp only [tmplVarsAux, List.mem_cons, List.mem_append] at h
    rcases h with h | h | h
    · exact Or.inl ⟨0, q, rfl, by simpa using h⟩
    · by_cases h0 : k = 0
      · subst h0
        simp at h
        exact Or.inr (Or.inl ⟨0, q, rfl, rfl, by simpa using h⟩)
      · by_cases h1 : k = 1
        · subst h1
          simp at h
          exact Or.inr (Or.inr (Or.inl ⟨0, q, rfl, rfl, by simpa using h⟩))
        · by_cases h2 : k = 2
          · subst h2
            simp at h
            exact Or.inr (Or.inr (Or.inr ⟨0, q, rfl, rfl, by simpa using h⟩))
          · simp [h0, h1, h2] at h
    · rcases ih (k + 1) kv h with ⟨i, p, hp, hkv⟩ | ⟨i, p, hp, hk, hkv⟩ |
        ⟨i, p, hp, hk, hkv⟩ | ⟨i, p, hp, hk, hkv⟩
      · refine Or.inl ⟨i + 1, p, by simpa using hp, ?_⟩
        have : k + (i + 1) = k + 1 + i := by omega
        rw [this]
        exact hkv
      · exact Or.inr (Or.inl ⟨i + 1, p, by simpa using hp, by omega, hkv⟩)
      · exact Or.inr (Or.inr (Or.inl ⟨i + 1, p, by simpa using hp, by omega, hkv⟩))
      · exact Or.inr (Or.inr (Or.inr ⟨i + 1, p, by simpa using hp, by omega, hkv⟩))

theorem tmplVars_lookup_major (v : String) (p : LVPart) (h : (lvParse v).get? 0 = some p) :
    List.lookup "major" (tmplVars v) = some p.toStr := by
  cases hl : lvParse v with
  | nil => rw [hl] at h; simp at h
  | cons q qs =>
    rw [hl] at h
    simp only [List.get?_cons_zero, Option.some.injEq] at h
    subst h
    unfold tmplVars tmplVarsAux
    rw [hl]
    simp [List.lookup, show ("major" == "version" ++ pyStrNat 0) = false from by decide]

theorem tmplVars_lookup_minor (v : String) (p : LVPart) (h : (lvParse v).get? 1 = some p) :
    List.lookup "minor" (tmplVars v) = some p.toStr := by
  match hl : lvParse v with
  | [] => rw [hl] at h; simp at h
  | [q] => rw [hl] at h; simp at h
  | q0 :: q1 :: qs =>
    rw [hl] at h
    simp only [List.get?_cons_succ, List.get?_cons_zero, Option.some.injEq] at h
    subst h
    unfold tmplVars tmplVarsAux
    rw [hl]
    simp [List.lookup, tmplVarsAux,
      show ("minor" == "version" ++ pyStrNat 0) = false from by decide,
      show ("minor" == "version" ++ pyStrNat 1) = false from by decide]

theorem tmplVars_lookup_patch (v : String) (p : LVPart) (h : (lvParse v).get? 2 = some p) :
    List.lookup "patch" (tmplVars v) = some p.toStr := by
  match hl : lvParse v with
  | [] => rw [hl] at h; simp at h
  | [q] => rw [hl] at h; simp at h
  | [q0, q1] => rw [hl] at h; simp at h
  | q0 :: q1 :: q2 :: qs =>
    rw [hl] at h
    simp only [List.get?_cons_succ, List.get?_cons_zero, Option.some.injEq] at h
    subst h
    unfold tmplVars tmplVarsAux
    rw [hl]
    simp [List.lookup, tmplVarsAux,
      show ("patch" == "version" ++ pyStrNat 0) = false from by decide,
      show ("patch" == "version" ++ pyStrNat 1) = false from by decide,
      show ("patch" == "version" ++ pyStrNat 2) = false from by decide]

theorem tmplVars_lookup_patch_none (v : String) (h : (lvParse v).length ≤ 2) :
    List.lookup "patch" (tmplVars v) = none := by
  match hl : lvParse v with
  | [] =>
    unfold tmplVars tmplVarsAux
    rw [hl]
    simp [List.lookup]
  | [p] =>
    unfold tmplVars tmplVarsAux
    rw [hl]
    simp [List.lookup, tmplVarsAux,
      show ("patch" == "version" ++ pyStrNat 0) = false from by decide]
  | [p, q] =>
    unfold tmplVars tmplVarsAux
    rw [hl]
    simp [List.lookup, tmplVarsAux,
      show ("patch" == "version" ++ pyStrNat 0) = false from by decide,
      show ("patch" == "version" ++ pyStrNat 1) = false from by decide]
  | p :: q :: r :: rest =>
    rw [hl] at h
    simp at h

/-! ### The claims -/

/-- C1: for every `_update_version` call with non-null version and URL whose
metadata fetch fails with a transport error, the record state is set to
`BROKEN` and the call completes normally — the result is an `ok` outcome
carrying exactly the `BROKEN` mutation, so no exception propagates. -/
theorem C1_transport_error_sets_broken
    (ed : ExternalData) (v u : String) (fr : Bool) (meta : MetaFetch) (e : TransportError)
    (h : meta u fr = .error e) :
    update_version ed (some v) (some u) fr meta =
      ([.metadataFetch], .ok ({ ed with state := .broken }, [.setBroken])) := by
  simp only [update_version]
  rw [h]

theorem C1_witness :
    (fun _ _ => .error .serverDisconnected : MetaFetch) "http://cand" false =
      .error .serverDisconnected ∧
    update_version ⟨.ok, none⟩ (some "1.0") (some "http://cand") false
      (fun _ _ => .error .serverDisconnected) =
      ([.metadataFetch], .ok (⟨.broken, none⟩, [.setBroken])) :=
  ⟨rfl, C1_transport_error_sets_broken ⟨.ok, none⟩ "1.0" "http://cand" false _
    .serverDisconnected rfl⟩

/-- C2: every `check` invocation performs at most one record mutation, and
the two possible mutations are mutually exclusive — the mutation trace is
empty, exactly `[setBroken]`, or exactly one `setNewVersion`, never both. -/
theorem C2_at_most_one_mutation (cd : CheckerData) (html : String) (meta : MetaFetch)
    (urljoin : String → String → String) (ed : ExternalData) :
    (check cd html meta urljoin ed).muts = [] ∨
    (check cd html meta urljoin ed).muts = [.setBroken] ∨
    ∃ d, (check cd html meta urljoin ed).muts = [.setNewVersion d] := by
  unfold check
  split
  · split
    · simp
    · split
      · next v u heq =>
        split
        · simp
        · simp only [update_version]
          cases hm : meta (urljoin cd.url u) false with
          | error e => simp [hm]
          | ok nv => simp [hm]
      · simp
  · simp

/-- C3 counterexample: a configuration whose combo pattern has one capture
group instead of two is not rejected before the network fetch — the event
trace of `check` already contains the page fetch when the group-count
assertion fails, contradicting the claim that no pattern validation runs
after the fetch. -/
theorem C3_counterexample :
    check ⟨"http://p", some ⟨1, fun _ => []⟩, none, none, none, true⟩ "html"
      (fun _ _ => .error .clientError) (fun _ u => u) ⟨.ok, none⟩ =
      ⟨[.fetchPage], [], ⟨.ok, none⟩, some .assertionError⟩ := rfl

/-- C3 amended: only the pattern-combination requirement is validated before
the fetch (an unsatisfied combination — where an empty url template counts
as absent, Python truthiness — aborts with `AssertionError` and an empty
event trace); the capture-group-count assertions (combo pattern two groups,
version pattern one group, url pattern one group) run after the page fetch,
and only for the branch actually taken, so a wrong group count surfaces as
an `AssertionError` whose trace already contains the fetch. -/
theorem C3_amended_validation_order :
    (∀ (cd : CheckerData) (html : String) (meta : MetaFetch)
        (urljoin : String → String → String) (ed : ExternalData),
      (cd.pattern.isSome ||
        (cd.version_pattern.isSome && (cd.url_pattern.isSome || pyTruthy cd.url_template))) =
          false →
      check cd html meta urljoin ed = ⟨[], [], ed, some .assertionError⟩)
  ∧ (∀ (cd : CheckerData) (html : String) (meta : MetaFetch)
        (urljoin : String → String → String) (ed : ExternalData) (cp : ComboPattern),
      cd.pattern = some cp → cp.groups ≠ 2 →
      check cd html meta urljoin ed = ⟨[.fetchPage], [], ed, some .assertionError⟩)
  ∧ (∀ (cd : CheckerData) (html : String) (meta : MetaFetch)
        (urljoin : String → String → String) (ed : ExternalData) (vp : SinglePattern),
      cd.pattern = none → cd.version_pattern = some vp →
      (cd.url_pattern.isSome || pyTruthy cd.url_template) = true → vp.groups ≠ 1 →
      check cd html meta urljoin ed = ⟨[.fetchPage], [], ed, some .assertionError⟩)
  ∧ (∀ (cd : CheckerData) (html : String) (meta : MetaFetch)
        (urljoin : String → String → String) (ed : ExternalData)
        (vp up : SinglePattern) (lv : Option String),
      cd.pattern = none → cd.version_pattern = some vp → vp.groups = 1 →
      get_latest (vp.findall html)
        (if cd.sort_matches then some looseVersion else none) = .ok lv →
      (pyTruthy lv && pyTruthy cd.url_template) = false →
      cd.url_pattern = some up → up.groups ≠ 1 →
      check cd html meta urljoin ed = ⟨[.fetchPage], [], ed, some .assertionError⟩) := by
  refine ⟨?_, ?_, ?_, ?_⟩
  · intro cd html meta urljoin ed hconf
    unfold check
    split
    · next h => rw [hconf] at h; exact absurd h (by simp)
    · rfl
  · intro cd html meta urljoin ed cp hp hg
    have hex : extract cd html = .error .assertionError := by
      unfold extract
      rw [hp]
      simp [hg]
    unfold check
    split
    · rw [hex]
    · next h =>
      rw [hp] at h
      simp at h
  · intro cd html meta urljoin ed vp hp hv hu hg
    have hex : extract cd html = .error .assertionError := by
      unfold extract
      rw [hp, hv]
      simp [hg]
    unfold check
    split
    · rw [hex]
    · next h =>
      rw [hp, hv] at h
      simp [hu] at h
  · intro cd html meta urljoin ed vp up lv hp hv hvg hsel hnt hup hug
    have hex : extract cd html = .error .assertionError := by
      unfold extract
      rw [hp, hv]
      simp [hvg, hsel, hnt, hup, hug]
    unfold check
    split
    · rw [hex]
    · next h =>
      rw [hp, hv, hup] at h
      simp at h

theorem C3_witness :
    (⟨"http://q", some ⟨3, fun _ => []⟩, none, none, none, false⟩ : CheckerData).pattern =
      some ⟨3, fun _ => []⟩ ∧ (3 : Nat) ≠ 2 ∧
    check ⟨"http://q", some ⟨3, fun _ => []⟩, none, none, none, false⟩ "page"
      (fun _ _ => .error .clientError) (fun _ u => u) ⟨.ok, none⟩ =
      ⟨[.fetchPage], [], ⟨.ok, none⟩, some .assertionError⟩ :=
  ⟨rfl, by decide,
    C3_amended_validation_order.2.1 _ "page" (fun _ _ => .error .clientError) (fun _ u => u)
      ⟨.ok, none⟩ ⟨3, fun _ => []⟩ rfl (by decide)⟩

/-- C4 counterexample: `LooseVersion("1.2") < LooseVersion("1.2.0")` is
true in the code (Python list comparison makes a strict prefix smaller), so
the claim that `"1.2" < "1.2.0"` is false (padding-equal) does not hold. -/
theorem C4_counterexample :
    lvCompare (looseVersion "1.2") (looseVersion "1.2.0") = .ok .lt := by decide

/-- C4 amended: numeric runs compare numerically (`"1.9" < "1.10"` and
`"1.2" < "1.2.1"`), but a shorter version string is not treated as
padding-equal: a strict component prefix compares strictly less, so
`"1.2" < "1.2.0"` is true. -/
theorem C4_amended_shorter_is_less :
    lvCompare (looseVersion "1.2") (looseVersion "1.2.0") = .ok .lt
  ∧ lvCompare (looseVersion "1.2") (looseVersion "1.2.1") = .ok .lt
  ∧ lvCompare (looseVersion "1.9") (looseVersion "1.10") = .ok .lt
  ∧ (∀ (a : List LVPart) (p : LVPart) (ps : List LVPart),
      lvListCmp a (a ++ p :: ps) = some .lt) :=
  ⟨by decide, by decide, by decide, lvListCmp_extend_lt⟩

/-- C5 counterexample: comparing the empty version string raises
`AttributeError` (`LooseVersion("")` never parses, its `version` attribute
is unset), so the comparison is not total and the empty string does not
compare as the minimum value. -/
theorem C5_counterexample :
    lvCompare (looseVersion "") (looseVersion "0") = .error .attributeError := rfl

/-- C5 amended: on non-empty version strings the comparison is reflexive
and the two orientations agree (either both yield swapped orderings or both
raise `TypeError`), and it is transitive where defined; but it is not total:
comparing a numeric against an alphabetic component raises `TypeError`
(e.g. `"1.2"` against `"1.a"`), and any comparison involving the empty
string raises `AttributeError` instead of treating it as the minimum. -/
theorem C5_amended_ordering :
    (∀ s : String, s ≠ "" → lvCompare (looseVersion s) (looseVersion s) = .ok .eq)
  ∧ (∀ a b : String, a ≠ "" → b ≠ "" →
      ((∃ o, lvCompare (looseVersion a) (looseVersion b) = .ok o ∧
        lvCompare (looseVersion b) (looseVersion a) = .ok o.swap) ∨
       (lvCompare (looseVersion a) (looseVersion b) = .error .typeError ∧
        lvCompare (looseVersion b) (looseVersion a) = .error .typeError)))
  ∧ (∀ a b c : String, lvCompare (looseVersion a) (looseVersion b) = .ok .lt →
      lvCompare (looseVersion b) (looseVersion c) = .ok .lt →
      (lvCompare (looseVersion a) (looseVersion c)).isOk = true →
      lvCompare (looseVersion a) (looseVersion c) = .ok .lt)
  ∧ (∀ s : String, lvCompare (looseVersion "") (looseVersion s) = .error .attributeError)
  ∧ lvCompare (looseVersion "1.2") (looseVersion "1.a") = .error .typeError := by
  refine ⟨?_, ?_, ?_, ?_, by decide⟩
  · intro s hs
    unfold looseVersion
    rw [if_neg hs]
    rw [lvCompare_ok_iff]
    exact lvListCmp_refl _
  · intro a b ha hb
    unfold looseVersion
    rw [if_neg ha, if_neg hb]
    cases hc : lvListCmp (lvParse a) (lvParse b) with
    | some o =>
      refine Or.inl ⟨o, lvCompare_ok_iff.mpr hc, lvCompare_ok_iff.mpr ?_⟩
      rw [lvListCmp_swap (lvParse a) (lvParse b), hc]
      rfl
    | none =>
      refine Or.inr ⟨?_, ?_⟩
      · simp [lvCompare, hc]
      · have : lvListCmp (lvParse b) (lvParse a) = none := by
          rw [lvListCmp_swap (lvParse a) (lvParse b), hc]
          rfl
        simp [lvCompare, this]
  · intro a b c h1 h2 hdef
    exact lvCompare_lt_trans h1 h2 hdef
  · intro s
    rfl

theorem C5_witness :
    ("2.0" : String) ≠ "" ∧
    lvCompare (looseVersion "2.0") (looseVersion "2.0") = .ok .eq :=
  ⟨by decide, C5_amended_ordering.1 "2.0" (by decide)⟩

/-- C6 counterexample: with two matches whose parsed components mix an
alphabetic and a numeric run, the selection raises `TypeError` instead of
returning a maximal match, so the claim does not hold for every page text
and pattern. -/
theorem C6_counterexample :
    get_latest ["1.b", "1.2"] (some looseVersion) = .error .typeError := rfl

/-- C6 amended: `_get_latest` returns `None` on zero matches, the first
match when there is exactly one match or no sort key, and — provided every
pair of match keys is comparable — a maximal match with ties broken by
first occurrence; when the scan must compare a numeric against an
alphabetic component, `TypeError` propagates instead.  On the spec's
example text the sorted selection yields `"2.0"` and the unsorted one
`"1.0"`. -/
theorem C6_amended_selection :
    (∀ (α : Type) (key : α → Option (List LVPart)),
      get_latest ([] : List α) (some key) = .ok none)
  ∧ (∀ (α : Type) (m : α) (ms : List α), get_latest (m :: ms) none = .ok (some m))
  ∧ (∀ (α : Type) (key : α → Option (List LVPart)) (m : α),
      get_latest [m] (some key) = .ok (some m))
  ∧ (∀ (α : Type) (key : α → Option (List LVPart)) (l : List α), l ≠ [] →
      (∀ x ∈ l, ∀ y ∈ l, (lvCompare (key x) (key y)).isOk = true) →
      ∃ r, get_latest l (some key) = .ok (some r) ∧ StableMaxBy key l r)
  ∧ get_latest ["1.0", "2.0", "1.5"] (some looseVersion) = .ok (some "2.0")
  ∧ get_latest ["1.0", "2.0", "1.5"] none = .ok (some "1.0") := by
  refine ⟨?_, ?_, ?_, ?_, by decide, by decide⟩
  · intro α key
    rfl
  · intro α m ms
    cases ms <;> rfl
  · intro α key m
    rfl
  · intro α key l hne H
    exact get_latest_stable key l hne H

theorem C6_witness :
    (["1.0", "2.0", "1.5"] : List String) ≠ [] ∧
    (∀ x ∈ ["1.0", "2.0", "1.5"], ∀ y ∈ ["1.0", "2.0", "1.5"],
      (lvCompare (looseVersion x) (looseVersion y)).isOk = true) ∧
    ∃ r, get_latest ["1.0", "2.0", "1.5"] (some looseVersion) = .ok (some r) ∧
      StableMaxBy looseVersion ["1.0", "2.0", "1.5"] r :=
  ⟨by decide, by decide,
    C6_amended_selection.2.2.2.1 String looseVersion ["1.0", "2.0", "1.5"]
      (by decide) (by decide)⟩

/-- C7 counterexample: for the empty version string the expansion does not
build the mapping and substitute — `LooseVersion("").version` raises
`AttributeError` before anything else happens, so the claim fails for that
input (and the failure is not the claimed `TemplateError`/`KeyError`). -/
theorem C7_counterexample :
    substitute_placeholders "$version" "" = .error .attributeError := rfl

/-- C7 amended: for every non-empty version string the expansion
substitutes exactly the placeholder dictionary into the template, and that
dictionary is exactly `version` → the full string, `version{i}` → the i-th
component, with `major`/`minor`/`patch` as aliases of components 0/1/2 when
they exist (`patch` is absent for shorter versions); a placeholder absent
from the dictionary fails with the `KeyError` that `Template.substitute`
raises (the spec's `TemplateError`).  For the empty version string the
expansion instead raises `AttributeError`. -/
theorem C7_amended_template_expansion :
    (∀ template version : String, version ≠ "" →
      substitute_placeholders template version =
        (substAux (tmplVars version) .plain template.data).map String.mk)
  ∧ (∀ version : String, List.lookup "version" (tmplVars version) = some version)
  ∧ (∀ (version : String) (i : Nat) (p : LVPart), (lvParse version).get? i = some p →
      ("version" ++ pyStrNat i, p.toStr) ∈ tmplVars version)
  ∧ (∀ version : String, ∀ kv ∈ tmplVars version,
      kv = ("version", version) ∨
      (∃ i p, (lvParse version).get? i = some p ∧ kv = ("version" ++ pyStrNat i, p.toStr)) ∨
      (∃ p, (lvParse version).get? 0 = some p ∧ kv = ("major", p.toStr)) ∨
      (∃ p, (lvParse version).get? 1 = some p ∧ kv = ("minor", p.toStr)) ∨
      (∃ p, (lvParse version).get? 2 = some p ∧ kv = ("patch", p.toStr)))
  ∧ (∀ (version : String) (p : LVPart), (lvParse version).get? 0 = some p →
      List.lookup "major" (tmplVars version) = some p.toStr)
  ∧ (∀ (version : String) (p : LVPart), (lvParse version).get? 1 = some p →
      List.lookup "minor" (tmplVars version) = some p.toStr)
  ∧ (∀ (version : String) (p : LVPart), (lvParse version).get? 2 = some p →
      List.lookup "patch" (tmplVars version) = some p.toStr)
  ∧ (∀ version : String, (lvParse version).length ≤ 2 →
      List.lookup "patch" (tmplVars version) = none)
  ∧ substitute_placeholders "https://x/v$major.$minor/app-$version.zip" "3.4.5" =
      .ok "https://x/v3.4/app-3.4.5.zip"
  ∧ substitute_placeholders "https://x/$patch.zip" "3.4" = .error .keyError := by
  refine ⟨?_, ?_, ?_, ?_, tmplVars_lookup_major, tmplVars_lookup_minor, tmplVars_lookup_patch,
    tmplVars_lookup_patch_none, by decide, by decide⟩
  · intro template version hv
    unfold substitute_placeholders
    rw [if_neg hv]
  · intro version
    exact lookup_cons_self
  · intro version i p hp
    have hmem := tmplVarsAux_mem 0 (lvParse version) i hp
    rw [Nat.zero_add] at hmem
    exact List.mem_cons_of_mem _ hmem
  · intro version kv hkv
    rcases List.mem_cons.mp hkv with h | h
    · exact Or.inl h
    · rcases tmplVarsAux_mem_inv 0 (lvParse version) kv h with
        ⟨i, p, hp, hkv2⟩ | ⟨i, p, hp, hk, hkv2⟩ | ⟨i, p, hp, hk, hkv2⟩ | ⟨i, p, hp, hk, hkv2⟩
      · refine Or.inr (Or.inl ⟨i, p, hp, ?_⟩)
        rw [Nat.zero_add] at hkv2
        exact hkv2
      · have hi : i = 0 := by omega
        subst hi
        exact Or.inr (Or.inr (Or.inl ⟨p, hp, hkv2⟩))
      · have hi : i = 1 := by omega
        subst hi
        exact Or.inr (Or.inr (Or.inr (Or.inl ⟨p, hp, hkv2⟩)))
      · have hi : i = 2 := by omega
        subst hi
        exact Or.inr (Or.inr (Or.inr (Or.inr ⟨p, hp, hkv2⟩)))

theorem C7_witness :
    ("1.2" : String) ≠ "" ∧
    substitute_placeholders "app-$version" "1.2" =
      (substAux (tmplVars "1.2") .plain "app-$version".data).map String.mk :=
  ⟨by decide, C7_amended_template_expansion.1 "app-$version" "1.2" (by decide)⟩

/-- C8: when the configuration assertion (Python truthiness, so an empty
url template counts as absent) passes and extraction yields a falsy latest
version or candidate URL (`None`, or the empty string, which Python's
truthiness test also treats as missing), `check` terminates right after the
page fetch with no mutation, the record unchanged, and no exception. -/
theorem C8_extraction_miss_no_mutation (cd : CheckerData) (html : String) (meta : MetaFetch)
    (urljoin : String → String → String) (ed : ExternalData) (lv lu : Option String)
    (hconf : (cd.pattern.isSome ||
      (cd.version_pattern.isSome && (cd.url_pattern.isSome || pyTruthy cd.url_template))) = true)
    (hex : extract cd html = .ok (lv, lu))
    (hmiss : lv = none ∨ lv = some "" ∨ lu = none ∨ lu = some "") :
    check cd html meta urljoin ed = ⟨[.fetchPage], [], ed, none⟩ := by
  unfold check
  split
  · rw [hex]
    rcases hmiss with h | h | h | h <;> subst h
    · rfl
    · cases lu <;> simp
    · cases lv <;> simp
    · cases lv <;> simp
  · next h => exact absurd hconf h

theorem C8_witness :
    extract ⟨"http://p", none, some ⟨1, fun _ => []⟩, some ⟨1, fun _ => ["u"]⟩, none, true⟩
      "html" = .ok (none, some "u") ∧
    check ⟨"http://p", none, some ⟨1, fun _ => []⟩, some ⟨1, fun _ => ["u"]⟩, none, true⟩
      "html" (fun _ _ => .error .clientError) (fun _ u => u) ⟨.ok, none⟩ =
      ⟨[.fetchPage], [], ⟨.ok, none⟩, none⟩ :=
  ⟨rfl, C8_extraction_miss_no_mutation _ "html" (fun _ _ => .error .clientError)
    (fun _ u => u) ⟨.ok, none⟩ none (some "u") rfl rfl (Or.inl rfl)⟩

/-- C9: when the metadata fetch succeeds, the installed descriptor is the
fetched one with its version field replaced by the page-extracted version,
and it is installed through a single `set_new_version` mutation. -/
theorem C9_success_overrides_version
    (ed : ExternalData) (v u : String) (fr : Bool) (meta : MetaFetch) (nv : Descriptor)
    (h : meta u fr = .ok nv) :
    update_version ed (some v) (some u) fr meta =
      ([.metadataFetch], .ok (ed.set_new_version { nv with version := v },
        [.setNewVersion { nv with version := v }])) := by
  simp only [update_version]
  rw [h]

theorem C9_witness :
    (fun _ _ => .ok ⟨"9.9", "http://m", "c", 5⟩ : MetaFetch) "http://cand" false =
      .ok ⟨"9.9", "http://m", "c", 5⟩ ∧
    update_version ⟨.ok, none⟩ (some "2.0") (some "http://cand") false
      (fun _ _ => .ok ⟨"9.9", "http://m", "c", 5⟩) =
      ([.metadataFetch], .ok (⟨.ok, some ⟨"2.0", "http://m", "c", 5⟩⟩,
        [.setNewVersion ⟨"2.0", "http://m", "c", 5⟩])) :=
  ⟨rfl, C9_success_overrides_version ⟨.ok, none⟩ "2.0" "http://cand" false
    (fun _ _ => .ok ⟨"9.9", "http://m", "c", 5⟩) ⟨"9.9", "http://m", "c", 5⟩ rfl⟩

/-- C10: when a combo pattern is configured, `check` consults only it — the
whole check result is invariant under arbitrary changes to the version
pattern, the url pattern and the url template. -/
theorem C10_combo_pattern_wins (url : String) (cp : ComboPattern) (sm : Bool)
    (vp1 vp2 up1 up2 : Option SinglePattern) (ut1 ut2 : Option String)
    (html : String) (meta : MetaFetch) (urljoin : String → String → String)
    (ed : ExternalData) :
    check ⟨url, some cp, vp1, up1, ut1, sm⟩ html meta urljoin ed =
    check ⟨url, some cp, vp2, up2, ut2, sm⟩ html meta urljoin ed := rfl
